import Mathlib

/-!
Verification of the wb-rules ECMAScript engine bridge (`wbrules/esengine.go`).

The definitions below are a shallow embedding of the Go source: pure
functions become Lean functions, the duktape heap-stash maps become
association lists threaded through explicit state, fallible bridge
functions return `Except`/`Option`.  External collaborators (the MD5
digest from `crypto/md5`, the JSON codec from duktape, the content
hash of `wbgo.ContentTracker`) are abstracted as function parameters.
Parts of the rule engine that live outside the given sources
(`ruleengine.go`: rule-condition check semantics) are modelled from the
specification and are marked as such in their doc comments.
-/

namespace WbRules

/-- Association-list lookup with decidable string keys, modelling the
string-keyed Go maps and duktape object property tables. -/
def alookup {α : Type} (k : String) : List (String × α) → Option α
  | [] => none
  | (a, v) :: rest => if a = k then some v else alookup k rest

/-! ### Timer bridge (`esWbStartTimer`, `esWbStopTimer`) -/

/-- `MIN_INTERVAL_MS` constant from `esengine.go`.  Intervals are modelled
as rationals (the Go code holds them as a `float64` number of
milliseconds). -/
def MIN_INTERVAL_MS : ℚ := 1

/-- First argument of `_wbStartTimer`: a timer name, a callback function
(identified by an id), or something else. -/
inductive TimerSpecArg where
  | name (s : String)
  | func (f : Nat)
  | other
deriving DecidableEq

/-- Result of a successful `_wbStartTimer` call. -/
structure StartedTimer where
  timerName : Option String
  intervalMs : ℚ
  periodic : Bool
  hasCallback : Bool
deriving DecidableEq

/-- `esWbStartTimer` from `esengine.go`: validates the first argument
(non-empty name or callback), clamps the requested interval at
`MIN_INTERVAL_MS`, and starts the timer. -/
def esWbStartTimer (arg0 : TimerSpecArg) (ms : ℚ) (periodic : Bool) :
    Except Unit StartedTimer :=
  match arg0 with
  | TimerSpecArg.name s =>
      if s = "" then Except.error ()
      else
        let ms := if ms < MIN_INTERVAL_MS then MIN_INTERVAL_MS else ms
        Except.ok ⟨some s, ms, periodic, false⟩
  | TimerSpecArg.func _ =>
      let ms := if ms < MIN_INTERVAL_MS then MIN_INTERVAL_MS else ms
      Except.ok ⟨none, ms, periodic, true⟩
  | TimerSpecArg.other => Except.error ()

/-- Argument to `_wbStopTimer`: a number, a string, or something else. -/
inductive StopTimerArg where
  | num (n : ℤ)
  | str (s : String)
  | other
deriving DecidableEq

/-- Observable effect of a `_wbStopTimer` call. -/
inductive StopTimerAction where
  /-- id 0: only a warning is logged, no registry call is made. -/
  | warnZero
  /-- forwarded to `engine.StopTimerByIndex`. -/
  | stopByIndex (n : ℤ)
  /-- forwarded to `engine.StopTimerByName`. -/
  | stopByName (s : String)
deriving DecidableEq

/-- `esWbStopTimer` from `esengine.go`: exactly one argument; a numeric id
of `0` logs a warning and returns normally, a nonzero id is forwarded to
`StopTimerByIndex`, a string is forwarded to `StopTimerByName`. -/
def esWbStopTimer (args : List StopTimerArg) : Except Unit StopTimerAction :=
  match args with
  | [StopTimerArg.num n] =>
      if n = 0 then Except.ok StopTimerAction.warnZero
      else Except.ok (StopTimerAction.stopByIndex n)
  | [StopTimerArg.str s] => Except.ok (StopTimerAction.stopByName s)
  | _ => Except.error ()

/-! ### Persistent key-value store (`esPersistentSet`, `esPersistentGet`)

The bolt database is modelled as an association list of buckets, each an
association list of string keys to the stored byte strings.  The duktape
JSON codec (`ctx.JsonEncode` / `ctx.JsonDecode`) is abstracted as an
encode/decode function pair over an arbitrary value type. -/

/-- A bolt database: buckets of key/value byte strings. -/
def PersistentDB : Type := List (String × List (String × String))

/-- `tx.CreateBucketIfNotExists` followed by `b.Put`: create the bucket if
it is absent, then store `value` under `key` (a later `Get` sees the new
binding). -/
def dbPut : PersistentDB → String → String → String → PersistentDB
  | [], bucket, key, value => [(bucket, [(key, value)])]
  | (a, bl) :: rest, bucket, key, value =>
      if a = bucket then (a, (key, value) :: bl) :: rest
      else (a, bl) :: dbPut rest bucket key value

/-- `tx.Bucket` + `b.Get`: `none` when the bucket does not exist or the key
has no binding. -/
def dbGet (db : PersistentDB) (bucket key : String) : Option String :=
  match alookup bucket db with
  | none => none
  | some b => alookup key b

/-- `esPersistentSet` from `esengine.go`: JSON-encode the value
(`ctx.JsonEncode(2)`) and store the encoding under the key in the bucket. -/
def esPersistentSet {V : Type} (enc : V → String) (db : PersistentDB)
    (bucket key : String) (v : V) : PersistentDB :=
  dbPut db bucket key (enc v)

/-- `esPersistentGet` from `esengine.go`: read the stored string; a missing
bucket or key yields `undefined` (`none`); otherwise the stored JSON is
decoded (`ctx.JsonDecode`). -/
def esPersistentGet {V : Type} (dec : String → V) (db : PersistentDB)
    (bucket key : String) : Option V :=
  (dbGet db bucket key).map dec

/-! ### Local object ids (`getFilenameHash`, `localObjectId`,
`maybeExpandLocalObjectId`)

`crypto/md5` is external to the repository; the digest function is a
parameter constrained to produce 16 bytes.  The XOR fold and the
`base64.RawURLEncoding` of the Go code are embedded concretely. -/

/-- The base64url alphabet (`base64.RawURLEncoding`). -/
def b64urlChar (n : Nat) : Char :=
  "ABCDEFGHIJKLMNOPQRSTUVWXYZabcdefghijklmnopqrstuvwxyz0123456789-_".toList.getD n '?'

/-- `base64.RawURLEncoding.EncodeToString`: base64url without padding.
Bytes are grouped by three; a two-byte remainder yields three characters
and a one-byte remainder yields two. -/
def base64RawUrlEncode : List Nat → List Char
  | b0 :: b1 :: b2 :: rest =>
      b64urlChar (b0 / 4) ::
      b64urlChar ((b0 % 4) * 16 + b1 / 16) ::
      b64urlChar ((b1 % 16) * 4 + b2 / 64) ::
      b64urlChar (b2 % 64) ::
      base64RawUrlEncode rest
  | [b0, b1] =>
      [b64urlChar (b0 / 4),
       b64urlChar ((b0 % 4) * 16 + b1 / 16),
       b64urlChar ((b1 % 16) * 4)]
  | [b0] =>
      [b64urlChar (b0 / 4),
       b64urlChar ((b0 % 4) * 16)]
  | [] => []

/-- The XOR fold from `getFilenameHash`: byte `i` of the result is
`hash[i] ^ hash[4+i] ^ hash[8+i] ^ hash[12+i]` for `i = 0..3`
(`md5.Size = 16`, `md5.Size/4 = 4`). -/
def foldDigest (d : List Nat) : List Nat :=
  (List.range 4).map (fun i => (d.getD i 0) ^^^ (d.getD (4 + i) 0) ^^^
    (d.getD (8 + i) 0) ^^^ (d.getD (12 + i) 0))

/-- `getFilenameHash` from `esengine.go`, with the memo map elided (see
`getFilenameHashMemo`): MD5 the filename, XOR-fold the digest into its
first four bytes, base64url-encode those four bytes without padding. -/
def getFilenameHash (md5fn : String → List Nat) (filename : String) : String :=
  String.mk (base64RawUrlEncode (foldDigest (md5fn filename)))

/-- `getFilenameHash` with the package-level `filenameMd5s` cache made
explicit: a hit returns the cached string unchanged, a miss computes the
hash and records it. -/
def getFilenameHashMemo (md5fn : String → List Nat)
    (cache : String → Option String) (filename : String) :
    String × (String → Option String) :=
  match cache filename with
  | some result => (result, cache)
  | none =>
      let result := getFilenameHash md5fn filename
      (result, fun f => if f = filename then some result else cache f)

/-- `localObjectId` from `esengine.go`: the rewritten global identifier. -/
def localObjectId (md5fn : String → List Nat) (filename objname : String) :
    String :=
  "_" ++ getFilenameHash md5fn filename ++ objname

/-- A duktape property value as far as `maybeExpandLocalObjectId` inspects
it: a string or something that is not a string. -/
inductive JsVal where
  | str (s : String)
  | nonstr
deriving DecidableEq

/-- The `this` binding seen by `maybeExpandLocalObjectId`: whether it is an
object, and its `filename` property when present. -/
structure ModuleThis where
  isObject : Bool
  filenameProp : Option JsVal
deriving DecidableEq

/-- `maybeExpandLocalObjectId` from `esengine.go`: inside a module scope
(`this` is an object with a string `filename` property) the name is
replaced by `localObjectId`; otherwise — in particular for top-level
declarations — the raw name is kept. -/
def maybeExpandLocalObjectId (md5fn : String → List Nat) (this : ModuleThis)
    (name : String) : String :=
  if this.isObject then
    match this.filenameProp with
    | some (JsVal.str f) => localObjectId md5fn f name
    | some JsVal.nonstr => name
    | none => name
  else name

/-- A sample digest function used by closed witnesses: maps every filename
to the bytes `0..15`. -/
def sampleDigestFn : String → List Nat := fun _ => List.range 16

/-! ### Module resolution (`ModSearch`)

The filesystem is a function from path to contents (`some` when
`ioutil.ReadFile` succeeds).  The heap-stash `_esModules` object — shared
by every script thread, since all threads live on one duktape heap — is an
association list from physical path to a storage object, where storage
objects are identified by the counter value at their allocation. -/

/-- The heap-stash state touched by `ModSearch`: the `_esModules` map from
physical path to storage-object identity, plus the allocation counter
that stands for `ctx.PushObject()` creating a fresh object. -/
structure ModState where
  moduleStorages : List (String × Nat)
  nextObjId : Nat
deriving DecidableEq

/-- Result of a `require` resolution: the values `ModSearch` stores on the
module object (`module.filename`, `module.storage`) plus the returned
source, or a thrown error. -/
inductive ModResult where
  | found (filename : String) (storage : Nat) (src : String)
  | notFound
deriving DecidableEq

/-- The probe path `dir + "/" + id + ".js"` from `ModSearch`. -/
def modulePath (dir id : String) : String := dir ++ "/" ++ id ++ ".js"

/-- `ModSearch` from `esengine.go`: walk `engine.modulesDirs` in order; on
the first directory whose `<dir>/<id>.js` is readable, set
`module.filename`, attach the per-path storage object from the heap
stash (allocating it on first use), and return the file's source; if no
directory has the file, throw. -/
def ModSearch (fs : String → Option String) (id : String) :
    List String → ModState → ModResult × ModState
  | [], st => (ModResult.notFound, st)
  | dir :: dirs, st =>
      let path := modulePath dir id
      match fs path with
      | some src =>
          match alookup path st.moduleStorages with
          | some sid => (ModResult.found path sid src, st)
          | none =>
              (ModResult.found path st.nextObjId src,
               ⟨(path, st.nextObjId) :: st.moduleStorages, st.nextObjId + 1⟩)
      | none => ModSearch fs id dirs st

/-- The directory walk of `ModSearch` restated by itself: the first
configured directory whose probe file is readable, with that file's
contents. -/
def findFirstModule (fs : String → Option String) (id : String) :
    List String → Option (String × String)
  | [] => none
  | dir :: dirs =>
      match fs (modulePath dir id) with
      | some src => some (modulePath dir id, src)
      | none => findFirstModule fs id dirs

/-- The storage object a successful resolution of path `p` attaches: the
one already in the heap stash, or the freshly allocated one. -/
def storageIdFor (st : ModState) (p : String) : Nat :=
  match alookup p st.moduleStorages with
  | some sid => sid
  | none => st.nextObjId

/-- A sample modules filesystem for closed witnesses: only `b/m.js`
exists. -/
def sampleModuleFs : String → Option String :=
  fun p => if p = "b/m.js" then some "SRC" else none

/-! ### Script loading (`loadScript`, `LiveLoadFile`, `LiveWriteScript`)

The content hash of `wbgo.ContentTracker` (an external collaborator) is a
parameter.  The observable effects of a (re)load are recorded as the
ordered lists of cleanup runs and script evaluations. -/

/-- The reload-relevant engine state: the content tracker's recorded
hashes plus the observable load history. -/
structure EngState where
  tracker : List (String × Nat)
  cleanupsRun : List String
  evals : List String
deriving DecidableEq

/-- `engine.tracker.Track(virtualPath, path)`, modelled from its use in
`loadScript`: report whether the content changed or is seen for the
first time, and record the new hash. -/
def track (hashFn : String → Nat) (vp content : String)
    (tr : List (String × Nat)) : Bool × List (String × Nat) :=
  let h := hashFn content
  (if alookup vp tr = some h then false else true, (vp, h) :: tr)

/-- `loadScript` from `esengine.go`, reduced to its reload logic: hash the
file; when `loadIfUnchanged` is false and the tracker reports no change,
skip (no cleanup, no new thread, no evaluation); otherwise run the
cleanup for the path and evaluate the script.  `none` models a read
failure. -/
def loadScript (hashFn : String → Nat) (fs : String → Option String)
    (path : String) (loadIfUnchanged : Bool) (st : EngState) :
    Option (Bool × EngState) :=
  match fs path with
  | none => none
  | some content =>
      let tres := track hashFn path content st.tracker
      if loadIfUnchanged = false ∧ tres.1 = false then
        some (false, ⟨tres.2, st.cleanupsRun, st.evals⟩)
      else
        some (true, ⟨tres.2, st.cleanupsRun ++ [path], st.evals ++ [path]⟩)

/-- `LiveLoadFile` from `esengine.go` (via `loadScriptAndRefresh`): load
with `loadIfUnchanged = false`. -/
def LiveLoadFile (hashFn : String → Nat) (fs : String → Option String)
    (path : String) (st : EngState) : Option (Bool × EngState) :=
  loadScript hashFn fs path false st

/-- `LiveWriteScript` from `esengine.go`: write the new content to the
file, then load with `loadIfUnchanged = true`. -/
def LiveWriteScript (hashFn : String → Nat) (fs : String → Option String)
    (vp content : String) (st : EngState) :
    (String → Option String) × Option (Bool × EngState) :=
  let fs2 := fun p => if p = vp then some content else fs p
  (fs2, loadScript hashFn fs2 vp true st)

/-- A sample script filesystem for closed witnesses: only `a.js` exists. -/
def sampleScriptFs : String → Option String :=
  fun p => if p = "a.js" then some "C" else none

/-! ### Rule definitions (`buildSingleWhenChangedRuleCondition`,
`buildWhenChangedRuleCondition`, `buildRuleCond`, `buildRule`,
`esWbDefineRule`) -/

/-- An element of a `whenChanged` spec as the duktape checks see it: a
string, a function (identified by an id), or something else. -/
inductive WcItem where
  | str (s : String)
  | func (f : Nat)
  | other
deriving DecidableEq

/-- The value of the `whenChanged` property: a single element or an
array. -/
inductive WhenChangedVal where
  | single (item : WcItem)
  | arr (items : List WcItem)
deriving DecidableEq

/-- A rule-definition object as far as `buildRule`/`buildRuleCond` inspect
it: presence of `then`, `when` and `asSoonAs`, and the values of the
`whenChanged` and `_cron` properties when present. -/
structure RuleDef where
  hasThen : Bool
  hasWhen : Bool
  hasAsSoonAs : Bool
  whenChanged : Option WhenChangedVal
  cron : Option String
deriving DecidableEq

/-- A compiled `whenChanged` child condition. -/
inductive WcCond where
  | cellChanged (dev ctl : String)
  | funcValueChanged (f : Nat)
deriving DecidableEq

/-- A compiled rule condition (the sealed taxonomy). -/
inductive RuleCondition where
  | level
  | edge
  | wc (c : WcCond)
  | orCond (cs : List WcCond)
  | cron (spec : String)
deriving DecidableEq

/-- `strings.SplitN(s, "/", 2)` over the character list: everything before
the first `'/'`, and the rest when a `'/'` occurs. -/
def goSplitN2Chars : List Char → List Char × Option (List Char)
  | [] => ([], none)
  | c :: rest =>
      if c = '/' then ([], some rest)
      else
        let r := goSplitN2Chars rest
        (c :: r.1, r.2)

/-- `strings.SplitN(cellFullName, "/", 2)` from
`buildSingleWhenChangedRuleCondition`: one part when there is no
separator, two parts otherwise. -/
def goSplitN2 (s : String) : List String :=
  match goSplitN2Chars s.data with
  | (a, none) => [String.mk a]
  | (a, some b) => [String.mk a, String.mk b]

/-- `buildSingleWhenChangedRuleCondition` from `esengine.go`: a string
must split into device and control on `"/"`; a function becomes a
func-value-changed condition; anything else is rejected. -/
def buildSingleWhenChangedRuleCondition (item : WcItem) :
    Except String WcCond :=
  match item with
  | WcItem.str s =>
      match goSplitN2 s with
      | [d, c] => Except.ok (WcCond.cellChanged d c)
      | _ => Except.error ("invalid whenChanged spec: " ++ s)
  | WcItem.func f => Except.ok (WcCond.funcValueChanged f)
  | WcItem.other => Except.error "whenChanged: array expected"

/-- The element loop of `buildWhenChangedRuleCondition`: build every array
element in order, aborting on the first failure. -/
def buildWcConds : List WcItem → Except String (List WcCond)
  | [] => Except.ok []
  | item :: rest =>
      match buildSingleWhenChangedRuleCondition item with
      | Except.error e => Except.error e
      | Except.ok c =>
          match buildWcConds rest with
          | Except.error e => Except.error e
          | Except.ok cs => Except.ok (c :: cs)

/-- `buildWhenChangedRuleCondition` from `esengine.go`: a non-array value
is compiled directly; an array is compiled element-wise into an
Or-condition. -/
def buildWhenChangedRuleCondition (v : WhenChangedVal) :
    Except String RuleCondition :=
  match v with
  | WhenChangedVal.single item =>
      (buildSingleWhenChangedRuleCondition item).map RuleCondition.wc
  | WhenChangedVal.arr items =>
      match buildWcConds items with
      | Except.error e => Except.error e
      | Except.ok cs => Except.ok (RuleCondition.orCond cs)

/-- `buildRuleCond` from `esengine.go`: the trigger-selection switch with
its conflict errors. -/
def buildRuleCond (d : RuleDef) : Except String RuleCondition :=
  if d.hasWhen && (d.hasAsSoonAs || d.whenChanged.isSome || d.cron.isSome) then
    Except.error "invalid rule -- cannot combine when with asSoonAs, whenChanged or cron"
  else if d.hasWhen then
    Except.ok RuleCondition.level
  else if d.hasAsSoonAs && (d.whenChanged.isSome || d.cron.isSome) then
    Except.error "invalid rule -- cannot combine asSoonAs with whenChanged or cron"
  else if d.hasAsSoonAs then
    Except.ok RuleCondition.edge
  else if d.whenChanged.isSome && d.cron.isSome then
    Except.error "invalid rule -- cannot combine whenChanged with cron spec"
  else
    match d.whenChanged with
    | some v => buildWhenChangedRuleCondition v
    | none =>
        match d.cron with
        | some spec => Except.ok (RuleCondition.cron spec)
        | none =>
            Except.error "invalid rule -- must provide one of when, asSoonAs or whenChanged"

/-- A registered rule. -/
structure Rule where
  id : Nat
  name : String
  cond : RuleCondition
deriving DecidableEq

/-- `buildRule` from `esengine.go`: reject a definition without `then`,
otherwise compile the condition and allocate the next rule id. -/
def buildRule (nextRuleId : Nat) (name : String) (d : RuleDef) :
    Except String Rule :=
  if d.hasThen = false then Except.error "invalid rule -- no then"
  else (buildRuleCond d).map (fun c => ⟨nextRuleId, name, c⟩)

/-- An argument of `_wbDefineRule` as the duktape checks see it. -/
inductive ESArg where
  | str (s : String)
  | obj (d : RuleDef)
  | other
deriving DecidableEq

/-- What a successful `_wbDefineRule` call produces: the name stored on
the registered rule, the short name recorded in the source entry, and
the rule id returned to the script. -/
structure DefineRuleResult where
  ruleName : String
  sourceItemName : String
  returnedId : Nat
deriving DecidableEq

/-- `esWbDefineRule` from `esengine.go`: one object argument (anonymous
rule, empty name) or a string plus an object (named rule; the stored
name is `currentFilename + "/" + shortName` and the source entry records
the short name); every other shape is a host error.  `engine.DefineRule`
is modelled from the spec: register the rule, return its id. -/
def esWbDefineRule (filename : String) (nextRuleId : Nat)
    (args : List ESArg) : Except Unit DefineRuleResult :=
  match args with
  | [ESArg.obj d] =>
      match buildRule nextRuleId "" d with
      | Except.error _ => Except.error ()
      | Except.ok rule => Except.ok ⟨rule.name, "", rule.id⟩
  | [ESArg.str s, ESArg.obj d] =>
      match buildRule nextRuleId (filename ++ "/" ++ s) d with
      | Except.error _ => Except.error ()
      | Except.ok rule => Except.ok ⟨rule.name, s, rule.id⟩
  | _ => Except.error ()

/-- `true` exactly on the `error` constructor. -/
def exceptFailed {ε α : Type} : Except ε α → Bool
  | Except.error _ => true
  | Except.ok _ => false

/-- A malformed `whenChanged` element in the words of the claim: a string
without a `'/'` separator, or an element that is neither string nor
function. -/
def wcItemBad : WcItem → Prop
  | WcItem.str s => ('/' ∈ s.data) → False
  | WcItem.func _ => False
  | WcItem.other => True

/-- A malformed `whenChanged` spec: a malformed single element, or an
array containing one. -/
def wcValMalformed : WhenChangedVal → Prop
  | WhenChangedVal.single item => wcItemBad item
  | WhenChangedVal.arr items => ∃ item ∈ items, wcItemBad item

/-- An invalid rule definition in the words of the claim: no `then`,
conflicting triggers, no trigger at all, or a malformed `whenChanged`
spec. -/
def invalidRuleDef (d : RuleDef) : Prop :=
  d.hasThen = false ∨
  (d.hasWhen = true ∧
    (d.hasAsSoonAs = true ∨ d.whenChanged.isSome = true ∨ d.cron.isSome = true)) ∨
  (d.hasAsSoonAs = true ∧ (d.whenChanged.isSome = true ∨ d.cron.isSome = true)) ∨
  (d.whenChanged.isSome = true ∧ d.cron.isSome = true) ∨
  (d.hasWhen = false ∧ d.hasAsSoonAs = false ∧ d.whenChanged.isSome = false ∧
    d.cron.isSome = false) ∨
  (∃ v, d.whenChanged = some v ∧ wcValMalformed v)

/-! ### Condition check semantics (for the one-element `whenChanged`
equivalence)

Modelled from the spec: the per-rule evaluation of `CellChanged`,
`FuncValueChanged` and `Or` conditions (`ruleengine.go`, which is not
among the given sources).  `CellChanged` fires iff the cell is complete
and its value differs from the last seen one or the cell is a pushbutton;
`FuncValueChanged` skips when the callback touched an incomplete cell and
otherwise fires iff the result differs from the stored one; `Or`
evaluates every child in declared order without short-circuit, fires iff
some child fires, and accumulates all children's dependencies. -/

/-- Modelled from the spec: one scan's environment — cell completeness,
values and types, and per-function results, touched cells and the
incomplete-touch flag (`ruleengine.go` is not among the given
sources). -/
structure ScanEnv where
  complete : String → String → Bool
  value : String → String → Nat
  isPushbutton : String → String → Bool
  funcResult : Nat → Nat
  funcTouched : Nat → List (String × String)
  funcIncomplete : Nat → Bool

/-- Per-rule scan outcome. -/
inductive Decision where
  | fire
  | noFire
  | skip
deriving DecidableEq

/-- Modelled from the spec: evaluation of a single `whenChanged` child
condition, threading its last-seen value. -/
def checkSingle (env : ScanEnv) (c : WcCond) (last : Option Nat) :
    Decision × Option Nat :=
  match c with
  | WcCond.cellChanged d ctl =>
      if env.complete d ctl then
        let v := env.value d ctl
        if env.isPushbutton d ctl then (Decision.fire, some v)
        else if last = some v then (Decision.noFire, some v)
        else (Decision.fire, some v)
      else (Decision.noFire, last)
  | WcCond.funcValueChanged f =>
      if env.funcIncomplete f then (Decision.skip, last)
      else
        let v := env.funcResult f
        if last = some v then (Decision.noFire, some v)
        else (Decision.fire, some v)

/-- Modelled from the spec: combination of child outcomes in an
Or-condition — a fire dominates, then a skip, else no fire. -/
def orDecision : Decision → Decision → Decision
  | Decision.fire, _ => Decision.fire
  | _, Decision.fire => Decision.fire
  | Decision.skip, _ => Decision.skip
  | _, Decision.skip => Decision.skip
  | _, _ => Decision.noFire

/-- Modelled from the spec: evaluation of an Or-condition — every child is
evaluated in declared order (no short-circuit), states update
pointwise. -/
def checkOr (env : ScanEnv) :
    List WcCond → List (Option Nat) → Decision × List (Option Nat)
  | [], _ => (Decision.noFire, [])
  | c :: cs, lasts =>
      let r1 := checkSingle env c (lasts.headD none)
      let rrest := checkOr env cs lasts.tail
      (orDecision r1.1 rrest.1, r1.2 :: rrest.2)

/-- Modelled from the spec: the dependency set a single child condition
registers — the referenced cell, or the cells the function touched. -/
def depsSingle (env : ScanEnv) : WcCond → List (String × String)
  | WcCond.cellChanged d ctl => [(d, ctl)]
  | WcCond.funcValueChanged f => env.funcTouched f

/-- Modelled from the spec: an Or-condition accumulates all children's
dependencies in declared order. -/
def depsOr (env : ScanEnv) : List WcCond → List (String × String)
  | [] => []
  | c :: cs => depsSingle env c ++ depsOr env cs

/-- Run a single child condition over a sequence of scans, threading its
state; returns the per-scan decisions. -/
def runScansSingle (c : WcCond) : List ScanEnv → Option Nat → List Decision
  | [], _ => []
  | e :: rest, last =>
      let r := checkSingle e c last
      r.1 :: runScansSingle c rest r.2

/-- Run an Or-condition over a sequence of scans, threading its states;
returns the per-scan decisions. -/
def runScansOr (cs : List WcCond) :
    List ScanEnv → List (Option Nat) → List Decision
  | [], _ => []
  | e :: rest, lasts =>
      let r := checkOr e cs lasts
      r.1 :: runScansOr cs rest r.2

end WbRules

namespace WbRules

/-- After `dbPut`, reading the same bucket and key returns the stored
value. -/
theorem dbGet_dbPut (db : PersistentDB) (bucket key value : String) :
    dbGet (dbPut db bucket key value) bucket key = some value := by
  induction db with
  | nil => simp [dbPut, dbGet, alookup]
  | cons hd rest ih =>
      obtain ⟨a, bl⟩ := hd
      by_cases hhd : a = bucket
      · subst hhd
        simp [dbPut, dbGet, alookup]
      · simp only [dbPut, if_neg hhd]
        simpa [dbGet, alookup, hhd] using ih

/-- A successful `ModSearch` leaves the found path bound to the returned
storage object in the heap-stash map. -/
theorem modSearch_found_lookup (fs : String → Option String) (id : String)
    (dirs : List String) (st : ModState) (p : String) (sid : Nat)
    (src : String) (st2 : ModState)
    (h : ModSearch fs id dirs st = (ModResult.found p sid src, st2)) :
    alookup p st2.moduleStorages = some sid := by
  induction dirs generalizing st with
  | nil => simp [ModSearch] at h
  | cons dir dirs ih =>
      unfold ModSearch at h
      cases hfs : fs (modulePath dir id) with
      | some s =>
          simp only [hfs] at h
          cases hl : alookup (modulePath dir id) st.moduleStorages with
          | some sid0 =>
              simp only [hl] at h
              injection h with h1 h2
              injection h1 with hp hsid hsrc
              subst hp; subst hsid; subst h2
              exact hl
          | none =>
              simp only [hl] at h
              injection h with h1 h2
              injection h1 with hp hsid hsrc
              subst hp; subst hsid; subst h2
              simp [alookup]
      | none =>
          simp only [hfs] at h
          exact ih st h

/-- A successful `ModSearch` that finds a path already present in the
heap-stash map returns the stored object and leaves the state
unchanged. -/
theorem modSearch_lookup_stable (fs : String → Option String) (id : String)
    (dirs : List String) (st : ModState) (p : String) (sid s0 : Nat)
    (src : String) (st2 : ModState)
    (h : ModSearch fs id dirs st = (ModResult.found p sid src, st2))
    (hl : alookup p st.moduleStorages = some s0) :
    sid = s0 ∧ st2 = st := by
  induction dirs generalizing st with
  | nil => simp [ModSearch] at h
  | cons dir dirs ih =>
      unfold ModSearch at h
      cases hfs : fs (modulePath dir id) with
      | some s =>
          simp only [hfs] at h
          cases hcur : alookup (modulePath dir id) st.moduleStorages with
          | some sid0 =>
              simp only [hcur] at h
              injection h with h1 h2
              injection h1 with hp hsid hsrc
              subst hp; subst hsid; subst h2
              rw [hl] at hcur
              injection hcur with hc
              exact ⟨hc.symm, rfl⟩
          | none =>
              simp only [hcur] at h
              injection h with h1 h2
              injection h1 with hp hsid hsrc
              subst hp
              rw [hl] at hcur
              cases hcur
      | none =>
          simp only [hfs] at h
          exact ih st h hl

/-- `SplitN` finds no separator exactly when the string has no `'/'`. -/
theorem goSplitN2Chars_none_iff (l : List Char) :
    (goSplitN2Chars l).2 = none ↔ '/' ∉ l := by
  induction l with
  | nil => simp [goSplitN2Chars]
  | cons c rest ih =>
      by_cases hc : c = '/'
      · subst hc
        simp [goSplitN2Chars]
      · have hc2 : ¬ ('/' = c) := fun h => hc h.symm
        simp [goSplitN2Chars, hc, List.mem_cons, hc2, ih]

/-- Mapping over an `Except` preserves failure. -/
theorem exceptFailed_map {ε α β : Type} (f : α → β) (e : Except ε α) :
    exceptFailed (Except.map f e) = exceptFailed e := by
  cases e <;> rfl

/-- `exceptFailed` on an error. -/
theorem exceptFailed_error {ε α : Type} (e : ε) :
    exceptFailed (Except.error e : Except ε α) = true := rfl

/-- `exceptFailed` on a success. -/
theorem exceptFailed_ok {ε α : Type} (a : α) :
    exceptFailed (Except.ok a : Except ε α) = false := rfl

/-- A single `whenChanged` element fails to compile exactly when it is
malformed in the sense of the claim. -/
theorem buildSingle_failed_iff (item : WcItem) :
    exceptFailed (buildSingleWhenChangedRuleCondition item) = true ↔
      wcItemBad item := by
  cases item with
  | str s =>
      unfold buildSingleWhenChangedRuleCondition goSplitN2 wcItemBad
      cases hsp : goSplitN2Chars s.data with
      | mk a ob =>
          cases ob with
          | none =>
              have hns : '/' ∉ s.data := by
                rw [← goSplitN2Chars_none_iff, hsp]
              simp [hsp, exceptFailed, hns]
          | some b =>
              have hmem : '/' ∈ s.data := by
                by_contra hn
                rw [← goSplitN2Chars_none_iff s.data, hsp] at hn
                cases hn
              simp [hsp, exceptFailed, hmem]
  | func f => simp [buildSingleWhenChangedRuleCondition, exceptFailed, wcItemBad]
  | other => simp [buildSingleWhenChangedRuleCondition, exceptFailed, wcItemBad]

/-- The element loop fails exactly when some array element is malformed. -/
theorem buildWcConds_failed_iff (items : List WcItem) :
    exceptFailed (buildWcConds items) = true ↔
      ∃ item ∈ items, wcItemBad item := by
  induction items with
  | nil => simp [buildWcConds, exceptFailed]
  | cons i rest ih =>
      unfold buildWcConds
      cases hb : buildSingleWhenChangedRuleCondition i with
      | error e =>
          have hbad : wcItemBad i :=
            (buildSingle_failed_iff i).1 (by simp [exceptFailed, hb])
          refine iff_of_true (by simp [exceptFailed]) ?_
          exact ⟨i, by simp, hbad⟩
      | ok c =>
          have hgood : ¬ wcItemBad i := by
            intro h2
            have := (buildSingle_failed_iff i).2 h2
            rw [hb] at this
            simp [exceptFailed] at this
          cases hr : buildWcConds rest with
          | error e =>
              have hex : ∃ item ∈ rest, wcItemBad item := by
                rw [← ih, hr]
                rfl
              refine iff_of_true (by simp [exceptFailed]) ?_
              obtain ⟨j, hj, hjb⟩ := hex
              exact ⟨j, by simp [hj], hjb⟩
          | ok cs =>
              have hnone : ¬ ∃ item ∈ rest, wcItemBad item := by
                rw [← ih, hr]
                simp [exceptFailed]
              refine iff_of_false (by simp [exceptFailed]) ?_
              intro hex
              obtain ⟨j, hj, hjb⟩ := hex
              rcases List.mem_cons.mp hj with hji | hjr
              · exact hgood (hji ▸ hjb)
              · exact hnone ⟨j, hjr, hjb⟩

/-- A `whenChanged` spec fails to compile exactly when it is malformed. -/
theorem buildWhenChanged_failed_iff (v : WhenChangedVal) :
    exceptFailed (buildWhenChangedRuleCondition v) = true ↔
      wcValMalformed v := by
  cases v with
  | single item =>
      unfold buildWhenChangedRuleCondition wcValMalformed
      rw [exceptFailed_map]
      exact buildSingle_failed_iff item
  | arr items =>
      unfold buildWhenChangedRuleCondition wcValMalformed
      cases hr : buildWcConds items with
      | error e =>
          have := (buildWcConds_failed_iff items).1 (by simp [exceptFailed, hr])
          simp [hr, exceptFailed, this]
      | ok cs =>
          have hnone : ¬ ∃ item ∈ items, wcItemBad item := by
            rw [← buildWcConds_failed_iff, hr]
            simp [exceptFailed]
          simp [hr, exceptFailed, hnone]

/-- `buildRule` fails exactly on the invalid definitions enumerated by the
claim. -/
theorem buildRule_failed_iff (n : Nat) (name : String) (d : RuleDef) :
    exceptFailed (buildRule n name d) = true ↔ invalidRuleDef d := by
  obtain ⟨ht, hw, ha, owc, ocr⟩ := d
  cases ht <;> cases hw <;> cases ha <;> cases owc <;> cases ocr <;>
    simp [buildRule, buildRuleCond, invalidRuleDef, exceptFailed_map,
      exceptFailed_error, exceptFailed_ok, buildWhenChanged_failed_iff]

/-- A successful `buildRule` carries the requested name and the allocated
id. -/
theorem buildRule_ok_fields (n : Nat) (name : String) (d : RuleDef)
    (rule : Rule) (h : buildRule n name d = Except.ok rule) :
    rule.id = n ∧ rule.name = name := by
  unfold buildRule at h
  by_cases ht : d.hasThen = false
  · simp [ht] at h
  · simp only [ht, if_neg] at h
    cases hc : buildRuleCond d with
    | error e =>
        rw [hc] at h
        simp [Except.map] at h
    | ok c =>
        rw [hc] at h
        simp [Except.map] at h
        simp [← h]

/-- Claim C7: for a rule-definition object passed to `defineRule` (in
either call shape), the call throws back to the script exactly when the
definition is invalid: no `then`, `when` combined with
`asSoonAs`/`whenChanged`/cron, `asSoonAs` combined with
`whenChanged`/cron, `whenChanged` combined with cron, none of the four
triggers, or a malformed `whenChanged` spec (a string without `'/'`, or
an element that is neither string nor function). -/
theorem defineRule_throws_iff_invalid (filename : String) (n : Nat)
    (d : RuleDef) :
    (esWbDefineRule filename n [ESArg.obj d] = Except.error () ↔
      invalidRuleDef d) ∧
    (∀ s, esWbDefineRule filename n [ESArg.str s, ESArg.obj d] =
      Except.error () ↔ invalidRuleDef d) := by
  constructor
  · cases hb : buildRule n "" d with
    | error e =>
        have hinv : invalidRuleDef d :=
          (buildRule_failed_iff n "" d).1 (by simp [hb, exceptFailed_error])
        simp [esWbDefineRule, hb, hinv]
    | ok rule =>
        have hninv : ¬ invalidRuleDef d := by
          intro hi
          have := (buildRule_failed_iff n "" d).2 hi
          rw [hb] at this
          simp [exceptFailed_ok] at this
        simp [esWbDefineRule, hb, hninv]
  · intro s
    cases hb : buildRule n (filename ++ "/" ++ s) d with
    | error e =>
        have hinv : invalidRuleDef d :=
          (buildRule_failed_iff n (filename ++ "/" ++ s) d).1
            (by simp [hb, exceptFailed_error])
        simp [esWbDefineRule, hb, hinv]
    | ok rule =>
        have hninv : ¬ invalidRuleDef d := by
          intro hi
          have := (buildRule_failed_iff n (filename ++ "/" ++ s) d).2 hi
          rw [hb] at this
          simp [exceptFailed_ok] at this
        simp [esWbDefineRule, hb, hninv]

/-- Witness for C7: a definition with `then` missing is rejected, and a
well-formed `whenChanged` definition is accepted. -/
theorem defineRule_throws_iff_invalid_witness :
    esWbDefineRule "f.js" 0
        [ESArg.obj ⟨false, true, false, none, none⟩] = Except.error () ∧
    ¬ esWbDefineRule "f.js" 0
        [ESArg.obj ⟨true, false, false,
          some (WhenChangedVal.single (WcItem.str "a/b")), none⟩] =
      Except.error () :=
  ⟨(defineRule_throws_iff_invalid "f.js" 0
      ⟨false, true, false, none, none⟩).1.mpr (Or.inl rfl),
   fun h =>
    absurd
      ((buildRule_failed_iff 0 ""
          ⟨true, false, false,
            some (WhenChangedVal.single (WcItem.str "a/b")), none⟩).2
        ((defineRule_throws_iff_invalid "f.js" 0
          ⟨true, false, false,
            some (WhenChangedVal.single (WcItem.str "a/b")), none⟩).1.mp h))
      (by decide)⟩

/-- Claim C10: the rule-definition bridge accepts exactly one
rule-definition object or a string followed by one; in the named form
the stored rule name is the current filename joined with `"/"` and the
short name while the source entry records the short name alone; a
successful call returns the newly assigned rule id; every other
argument shape is a host error. -/
theorem defineRule_bridge_shapes (filename : String) (n : Nat) :
    (∀ s d r, esWbDefineRule filename n [ESArg.str s, ESArg.obj d] =
        Except.ok r →
      r.ruleName = filename ++ "/" ++ s ∧ r.sourceItemName = s ∧
        r.returnedId = n) ∧
    (∀ d r, esWbDefineRule filename n [ESArg.obj d] = Except.ok r →
      r.ruleName = "" ∧ r.sourceItemName = "" ∧ r.returnedId = n) ∧
    (∀ args, (∀ d, args ≠ [ESArg.obj d]) →
      (∀ s d, args ≠ [ESArg.str s, ESArg.obj d]) →
      esWbDefineRule filename n args = Except.error ()) := by
  refine ⟨?_, ?_, ?_⟩
  · intro s d r h
    simp only [esWbDefineRule] at h
    cases hb : buildRule n (filename ++ "/" ++ s) d with
    | error e => rw [hb] at h; cases h
    | ok rule =>
        rw [hb] at h
        injection h with h
        obtain ⟨hid, hname⟩ :=
          buildRule_ok_fields n (filename ++ "/" ++ s) d rule hb
        rw [← h]
        exact ⟨hname, rfl, hid⟩
  · intro d r h
    simp only [esWbDefineRule] at h
    cases hb : buildRule n "" d with
    | error e => rw [hb] at h; cases h
    | ok rule =>
        rw [hb] at h
        injection h with h
        obtain ⟨hid, hname⟩ := buildRule_ok_fields n "" d rule hb
        rw [← h]
        exact ⟨hname, rfl, hid⟩
  · intro args h1 h2
    unfold esWbDefineRule
    split
    · exact absurd rfl (h1 _)
    · exact absurd rfl (h2 _ _)
    · rfl

/-- Witness for C10: a named definition stores
`"f.js/r"`, records `"r"`, and returns id 5; a junk argument shape is a
host error. -/
theorem defineRule_bridge_shapes_witness :
    (∀ r, esWbDefineRule "f.js" 5
        [ESArg.str "r",
         ESArg.obj ⟨true, true, false, none, none⟩] = Except.ok r →
      r.ruleName = "f.js" ++ "/" ++ "r" ∧ r.sourceItemName = "r" ∧
        r.returnedId = 5) ∧
    esWbDefineRule "f.js" 5 [ESArg.other] = Except.error () :=
  ⟨fun r h => (defineRule_bridge_shapes "f.js" 5).1 "r"
      ⟨true, true, false, none, none⟩ r h,
   (defineRule_bridge_shapes "f.js" 5).2.2 [ESArg.other]
     (fun d h => by cases h) (fun s d h => by cases h)⟩

/-- Combining a child outcome with "no fire" keeps the child outcome. -/
theorem orDecision_noFire (d : Decision) : orDecision d Decision.noFire = d := by
  cases d <;> rfl

/-- An Or-condition with a single child evaluates exactly as the child. -/
theorem checkOr_singleton (env : ScanEnv) (c : WcCond) (l : Option Nat) :
    checkOr env [c] [l] =
      ((checkSingle env c l).1, [(checkSingle env c l).2]) := by
  unfold checkOr
  simp [checkOr, orDecision_noFire]

/-- Over any scan sequence, the singleton Or-condition and the bare child
produce the same decisions. -/
theorem runScansOr_singleton (c : WcCond) (envs : List ScanEnv)
    (l : Option Nat) :
    runScansOr [c] envs [l] = runScansSingle c envs l := by
  induction envs generalizing l with
  | nil => rfl
  | cons e rest ih =>
      unfold runScansOr runScansSingle
      rw [checkOr_singleton]
      simpa using ih (checkSingle e c l).2

/-- Claim C5: `whenChanged` with a one-element array compiles to the
Or-condition of the element's condition, `whenChanged` with the bare
element compiles to that condition directly, and the two behave
identically — same fire/skip decision on every scan (threading state
from any common starting point) and the same dependency tracking. -/
theorem whenChanged_singleton_equiv (item : WcItem) (c : WcCond)
    (h : buildSingleWhenChangedRuleCondition item = Except.ok c) :
    buildWhenChangedRuleCondition (WhenChangedVal.arr [item]) =
      Except.ok (RuleCondition.orCond [c]) ∧
    buildWhenChangedRuleCondition (WhenChangedVal.single item) =
      Except.ok (RuleCondition.wc c) ∧
    (∀ envs last, runScansOr [c] envs [last] = runScansSingle c envs last) ∧
    (∀ env, depsOr env [c] = depsSingle env c) := by
  refine ⟨?_, ?_, fun envs last => runScansOr_singleton c envs last, ?_⟩
  · simp [buildWhenChangedRuleCondition, buildWcConds, h]
  · simp [buildWhenChangedRuleCondition, h, Except.map]
  · intro env
    simp [depsOr]

/-- Witness for C5: the element `"a/b"` compiles to the cell-changed
condition on `(a, b)`; the singleton array and the bare string agree. -/
theorem whenChanged_singleton_equiv_witness :
    buildWhenChangedRuleCondition (WhenChangedVal.arr [WcItem.str "a/b"]) =
      Except.ok (RuleCondition.orCond [WcCond.cellChanged "a" "b"]) ∧
    buildWhenChangedRuleCondition (WhenChangedVal.single (WcItem.str "a/b")) =
      Except.ok (RuleCondition.wc (WcCond.cellChanged "a" "b")) ∧
    (∀ envs last, runScansOr [WcCond.cellChanged "a" "b"] envs [last] =
      runScansSingle (WcCond.cellChanged "a" "b") envs last) ∧
    (∀ env, depsOr env [WcCond.cellChanged "a" "b"] =
      depsSingle env (WcCond.cellChanged "a" "b")) :=
  whenChanged_singleton_equiv (WcItem.str "a/b") (WcCond.cellChanged "a" "b")
    rfl

/-- Claim C4: when the recorded content hash matches, a load with
`loadIfUnchanged = false` (the `LiveLoadFile` path) performs no reload —
no cleanup runs and the script is not re-evaluated; consequently
`LiveWrite(vp, s)` followed by the watcher-triggered load of `vp`
evaluates the script exactly once, the second load being skipped
because the content hash already matches. -/
theorem load_unchanged_skips (hashFn : String → Nat)
    (fs : String → Option String) (st : EngState) :
    (∀ path content, fs path = some content →
      alookup path st.tracker = some (hashFn content) →
      loadScript hashFn fs path false st =
        some (false,
          ⟨(path, hashFn content) :: st.tracker, st.cleanupsRun, st.evals⟩)) ∧
    (∀ vp content,
      LiveWriteScript hashFn fs vp content st =
        ((fun p => if p = vp then some content else fs p),
         some (true, ⟨(vp, hashFn content) :: st.tracker,
                      st.cleanupsRun ++ [vp], st.evals ++ [vp]⟩)) ∧
      LiveLoadFile hashFn (fun p => if p = vp then some content else fs p) vp
          ⟨(vp, hashFn content) :: st.tracker,
           st.cleanupsRun ++ [vp], st.evals ++ [vp]⟩ =
        some (false,
          ⟨(vp, hashFn content) :: (vp, hashFn content) :: st.tracker,
           st.cleanupsRun ++ [vp], st.evals ++ [vp]⟩)) := by
  constructor
  · intro path content hfs hrec
    unfold loadScript track
    simp [hfs, hrec]
  · intro vp content
    constructor
    · unfold LiveWriteScript loadScript track
      simp
    · unfold LiveLoadFile loadScript track
      simp [alookup]

/-- Witness for C4: with `a.js` on disk, its hash recorded, a
`LiveLoadFile` is a no-op; and writing `s.js` then live-loading it
evaluates it once, the second load skipping. -/
theorem load_unchanged_skips_witness :
    loadScript String.length sampleScriptFs "a.js" false
        ⟨[("a.js", String.length "C")], [], []⟩ =
      some (false, ⟨("a.js", String.length "C") :: [("a.js", String.length "C")],
                    [], []⟩) ∧
    (LiveWriteScript String.length sampleScriptFs "s.js" "XY"
        ⟨[("a.js", String.length "C")], [], []⟩ =
      ((fun p => if p = "s.js" then some "XY" else sampleScriptFs p),
       some (true, ⟨("s.js", String.length "XY") :: [("a.js", String.length "C")],
                    [] ++ ["s.js"], [] ++ ["s.js"]⟩)) ∧
     LiveLoadFile String.length
        (fun p => if p = "s.js" then some "XY" else sampleScriptFs p) "s.js"
        ⟨("s.js", String.length "XY") :: [("a.js", String.length "C")],
         [] ++ ["s.js"], [] ++ ["s.js"]⟩ =
      some (false,
        ⟨("s.js", String.length "XY") :: ("s.js", String.length "XY") ::
           [("a.js", String.length "C")],
         [] ++ ["s.js"], [] ++ ["s.js"]⟩)) :=
  ⟨(load_unchanged_skips String.length sampleScriptFs
      ⟨[("a.js", String.length "C")], [], []⟩).1 "a.js" "C" (by decide) (by decide),
   (load_unchanged_skips String.length sampleScriptFs
      ⟨[("a.js", String.length "C")], [], []⟩).2 "s.js" "XY"⟩

/-- Claim C3: `require(id)` probes `<dir>/<id>.js` through the configured
directories in order; on the first readable one it sets
`module.filename` to that physical path and returns that file's source
(and the storage object determined by the heap stash), never consulting
later directories; if no directory has a readable probe file, it
throws. -/
theorem modSearch_first_dir (fs : String → Option String) (id : String)
    (dirs : List String) (st : ModState) :
    (∀ p src, findFirstModule fs id dirs = some (p, src) →
      (ModSearch fs id dirs st).1 = ModResult.found p (storageIdFor st p) src) ∧
    (findFirstModule fs id dirs = none →
      (ModSearch fs id dirs st).1 = ModResult.notFound) := by
  induction dirs generalizing st with
  | nil =>
      refine ⟨fun p src h => ?_, fun _ => rfl⟩
      cases h
  | cons dir dirs ih =>
      constructor
      · intro p src h
        unfold findFirstModule at h
        cases hfs : fs (modulePath dir id) with
        | some s =>
            simp only [hfs, Option.some.injEq] at h
            injection h with hp hsrc
            subst hp; subst hsrc
            unfold ModSearch storageIdFor
            simp only [hfs]
            cases hl : alookup (modulePath dir id) st.moduleStorages <;>
              simp [hl]
        | none =>
            simp only [hfs] at h
            have := (ih st).1 p src h
            unfold ModSearch
            simpa [hfs] using this
      · intro h
        unfold findFirstModule at h
        cases hfs : fs (modulePath dir id) with
        | some s => simp [hfs] at h
        | none =>
            simp only [hfs] at h
            have := (ih st).2 h
            unfold ModSearch
            simpa [hfs] using this

/-- Witness for C3: with only `b/m.js` on disk and directories
`["a", "b"]`, `require("m")` resolves to `b/m.js` with its source, and
`require("x")` throws. -/
theorem modSearch_first_dir_witness :
    (ModSearch sampleModuleFs "m" ["a", "b"] ⟨[], 0⟩).1 =
      ModResult.found "b/m.js" (storageIdFor ⟨[], 0⟩ "b/m.js") "SRC" ∧
    (ModSearch sampleModuleFs "x" ["a", "b"] ⟨[], 0⟩).1 =
      ModResult.notFound :=
  ⟨(modSearch_first_dir sampleModuleFs "m" ["a", "b"] ⟨[], 0⟩).1
      "b/m.js" "SRC" (by decide),
   (modSearch_first_dir sampleModuleFs "x" ["a", "b"] ⟨[], 0⟩).2 (by decide)⟩

/-- Claim C2: two `require` resolutions that hit the same physical path —
from any script thread, in any order of module ids, the second running
on the state the first produced — attach the object-identical storage
object: the heap-stash `_esModules` map is keyed by physical path and
the storage object is created only on the first resolution. -/
theorem require_shares_storage (fs : String → Option String)
    (id1 id2 : String) (dirs : List String) (st st1 st2 : ModState)
    (p : String) (sid1 sid2 : Nat) (src1 src2 : String)
    (h1 : ModSearch fs id1 dirs st = (ModResult.found p sid1 src1, st1))
    (h2 : ModSearch fs id2 dirs st1 = (ModResult.found p sid2 src2, st2)) :
    sid2 = sid1 ∧ st2 = st1 := by
  have hl := modSearch_found_lookup fs id1 dirs st p sid1 src1 st1 h1
  exact modSearch_lookup_stable fs id2 dirs st1 p sid2 sid1 src2 st2 h2 hl

/-- Witness for C2: requiring `"m"` twice over the sample filesystem
yields the same storage object (id 0) and leaves the stash unchanged. -/
theorem require_shares_storage_witness :
    ModSearch sampleModuleFs "m" ["a", "b"] ⟨[], 0⟩ =
      (ModResult.found "b/m.js" 0 "SRC", ⟨[("b/m.js", 0)], 1⟩) ∧
    ModSearch sampleModuleFs "m" ["a", "b"] ⟨[("b/m.js", 0)], 1⟩ =
      (ModResult.found "b/m.js" 0 "SRC", ⟨[("b/m.js", 0)], 1⟩) ∧
    ((0 : Nat) = 0 ∧ (⟨[("b/m.js", 0)], 1⟩ : ModState) = ⟨[("b/m.js", 0)], 1⟩) :=
  ⟨by decide, by decide,
   require_shares_storage sampleModuleFs "m" "m" ["a", "b"]
     ⟨[], 0⟩ ⟨[("b/m.js", 0)], 1⟩ ⟨[("b/m.js", 0)], 1⟩
     "b/m.js" 0 0 "SRC" "SRC" (by decide) (by decide)⟩

/-- Claim C1: a name `N` declared from a module with physical path `P`
(via `module.defineVirtualDevice` or `module.PersistentStorage`, both of
which rewrite names by `maybeExpandLocalObjectId`) becomes
`"_" ++ H ++ N`, where `H` is the unpadded base64url encoding of the
first four bytes of `md5(P)` after byte `i` has been XORed with bytes
`i+4`, `i+8` and `i+12`; the memoized hash is stable (a cache whose
entries agree with the hash function yields the same `H`, and remains in
that state); and a top-level declaration — where `this` has no string
`filename` property — keeps the raw name. -/
theorem local_object_id_rewrite (md5fn : String → List Nat) (P N : String)
    (cache : String → Option String)
    (hcache : ∀ p h, cache p = some h → h = getFilenameHash md5fn p) :
    maybeExpandLocalObjectId md5fn ⟨true, some (JsVal.str P)⟩ N =
      "_" ++ String.mk (base64RawUrlEncode (foldDigest (md5fn P))) ++ N ∧
    (getFilenameHashMemo md5fn cache P).1 = getFilenameHash md5fn P ∧
    (∀ p h, (getFilenameHashMemo md5fn cache P).2 p = some h →
      h = getFilenameHash md5fn p) ∧
    (∀ this : ModuleThis, (∀ f, this.filenameProp ≠ some (JsVal.str f)) →
      maybeExpandLocalObjectId md5fn this N = N) := by
  refine ⟨rfl, ?_, ?_, ?_⟩
  · unfold getFilenameHashMemo
    cases hc : cache P with
    | none => rfl
    | some r => exact hcache P r hc
  · intro p h
    unfold getFilenameHashMemo
    cases hc : cache P with
    | none =>
        simp only
        intro hp
        by_cases hpp : p = P
        · subst hpp
          simp at hp
          exact hp.symm
        · simp [hpp] at hp
          exact hcache p h hp
    | some r =>
        simp only
        exact hcache p h
  · intro this hnone
    unfold maybeExpandLocalObjectId
    cases hobj : this.isObject with
    | false => simp
    | true =>
        simp only [if_pos rfl]
        cases hfp : this.filenameProp with
        | none => rfl
        | some v =>
            cases v with
            | str f => exact absurd hfp (hnone f)
            | nonstr => rfl

/-- Witness for C1: with the all-zero-fold sample digest (bytes `0..15`
fold to four zero bytes, which encode as `"AAAAAA"`), an empty cache and
module path `"m.js"`, the name `"dev"` is rewritten accordingly and the
hash is stable. -/
theorem local_object_id_rewrite_witness :
    maybeExpandLocalObjectId sampleDigestFn ⟨true, some (JsVal.str "m.js")⟩
        "dev" =
      "_" ++ String.mk (base64RawUrlEncode (foldDigest (sampleDigestFn "m.js"))) ++
        "dev" ∧
    (getFilenameHashMemo sampleDigestFn (fun _ => none) "m.js").1 =
      getFilenameHash sampleDigestFn "m.js" ∧
    (∀ p h,
      (getFilenameHashMemo sampleDigestFn (fun _ => none) "m.js").2 p = some h →
      h = getFilenameHash sampleDigestFn p) ∧
    (∀ this : ModuleThis, (∀ f, this.filenameProp ≠ some (JsVal.str f)) →
      maybeExpandLocalObjectId sampleDigestFn this "dev" = "dev") :=
  local_object_id_rewrite sampleDigestFn "m.js" "dev" (fun _ => none)
    (fun _ _ hp => Option.noConfusion hp)

/-- Claim C8: a requested timer interval below 1 ms is started with exactly
1 ms; an interval of at least 1 ms is used unchanged.  This covers every
script-facing path (`startTimer`, `startTicker`, `setTimeout`,
`setInterval`), all of which enter through `_wbStartTimer`. -/
theorem startTimer_clamps_interval (arg0 : TimerSpecArg) (ms : ℚ)
    (periodic : Bool) (t : StartedTimer)
    (h : esWbStartTimer arg0 ms periodic = Except.ok t) :
    (ms < 1 → t.intervalMs = 1) ∧ (1 ≤ ms → t.intervalMs = ms) := by
  cases arg0 with
  | name s =>
      by_cases hs : s = "" <;>
        simp [esWbStartTimer, hs, MIN_INTERVAL_MS] at h
      constructor
      · intro hlt
        simp [← h, if_pos hlt]
      · intro hge
        simp [← h, if_neg (not_lt.mpr hge)]
  | func f =>
      simp [esWbStartTimer, MIN_INTERVAL_MS] at h
      constructor
      · intro hlt
        simp [← h, if_pos hlt]
      · intro hge
        simp [← h, if_neg (not_lt.mpr hge)]
  | other => simp [esWbStartTimer] at h

/-- Witness for C8: a 1/2 ms request is clamped to 1 ms, a 5 ms request is
kept. -/
theorem startTimer_clamps_interval_witness :
    (∀ t, esWbStartTimer (TimerSpecArg.func 0) (1/2) false = Except.ok t →
      t.intervalMs = 1) ∧
    (∀ t, esWbStartTimer (TimerSpecArg.func 0) 5 false = Except.ok t →
      t.intervalMs = 5) := by
  constructor
  · intro t ht
    exact (startTimer_clamps_interval _ _ _ t ht).1 (by norm_num)
  · intro t ht
    exact (startTimer_clamps_interval _ _ _ t ht).2 (by norm_num)

/-- Claim C9: stopping timer id 0 is a logged no-op — no registry call, a
normal return; any nonzero numeric id is forwarded to the timer
registry (`StopTimerByIndex`). -/
theorem stopTimer_zero_noop :
    esWbStopTimer [StopTimerArg.num 0] = Except.ok StopTimerAction.warnZero ∧
    (∀ n : ℤ, n ≠ 0 →
      esWbStopTimer [StopTimerArg.num n] =
        Except.ok (StopTimerAction.stopByIndex n)) := by
  constructor
  · rfl
  · intro n hn
    simp [esWbStopTimer, hn]

/-- Witness for C9: stopping id 7 is forwarded to the registry. -/
theorem stopTimer_zero_noop_witness :
    esWbStopTimer [StopTimerArg.num 7] =
      Except.ok (StopTimerAction.stopByIndex 7) :=
  stopTimer_zero_noop.2 7 (by decide)

/-- Claim C6: on any bucket, `persistent.set(k, v)` followed by
`persistent.get(k)` returns a value equal to `v` whenever `v` survives the
JSON encode/decode round trip; and `get` of a key that was never set — in
particular of a bucket that does not exist — returns `undefined`. -/
theorem persistent_set_get_roundtrip {V : Type} (enc : V → String)
    (dec : String → V) (db : PersistentDB) (bucket key : String) (v : V)
    (hv : dec (enc v) = v) :
    esPersistentGet dec (esPersistentSet enc db bucket key v) bucket key =
      some v ∧
    (∀ b k, dbGet db b k = none → esPersistentGet dec db b k = none) := by
  constructor
  · unfold esPersistentGet esPersistentSet
    rw [dbGet_dbPut]
    simp [hv]
  · intro b k h
    unfold esPersistentGet
    rw [h]
    rfl

/-- Witness for C6: a concrete round trip (string values, identity JSON
codec) on an empty database. -/
theorem persistent_set_get_roundtrip_witness :
    esPersistentGet (fun s => s)
        (esPersistentSet (fun s : String => s) [] "bucket" "k" "42")
        "bucket" "k" = some "42" ∧
    (∀ b k, dbGet [] b k = none →
      esPersistentGet (fun s : String => s) [] b k = none) :=
  persistent_set_get_roundtrip (fun s : String => s)
    (fun s => s) [] "bucket" "k" "42" rfl

end WbRules
